import Mathlib

/- Verification of the FOAMFlask accelerator (src/backend/accelerator/src/lib.rs).

   The Rust module exposes two operations, parse_scalar_field and parse_vector_field,
   that scan an OpenFOAM field file for the internalField anchor, classify the field
   as nonuniform or uniform, and return the arithmetic mean of the data values.

   Shallow embedding conventions:
   - a file's byte contents is a `List Nat` (byte values 0..255);
   - Rust f64 values are modelled as exact rationals `ℚ`; the decimal grammar of
     f64::from_str (sign, digits, fraction, exponent) is modelled exactly, while
     IEEE-754 rounding, infinities and NaN are outside the rational model;
   - the filesystem steps (exists check, File::open, metadata, mmap) are an explicit
     `Fs` record of outcomes, and PyResult is the `Except` monad;
   - the three lazily initialised OnceLock regexes are modelled by a `Cache` record,
     with stateful variants of both operations threading it exactly as the code
     fetches each regex. -/

/-- ASCII digit test, as in Rust `u8::is_ascii_digit`. -/
def isDigitB (b : Nat) : Bool := 48 ≤ b && b ≤ 57

/-- The split set of the scalar nonuniform loop: `b' '`, `b'\n'`, `b'\t'`, `b'\r'`
(lib.rs line 100). -/
def isSplitByte (b : Nat) : Bool := b = 32 || b = 10 || b = 9 || b = 13

/-- The split set of the vector nonuniform loop: whitespace plus `(` and `)`
(lib.rs line 204). -/
def isSplitByteVec (b : Nat) : Bool :=
  b = 32 || b = 10 || b = 9 || b = 13 || b = 40 || b = 41

/-- ASCII whitespace as matched by the regex class `\s` and by Rust
`split_whitespace`: tab, LF, VT, FF, CR, space. -/
def isWsB (b : Nat) : Bool := b = 9 || b = 10 || b = 11 || b = 12 || b = 13 || b = 32

/-- A byte of the regex class `[^\s;]` (ASCII scope of the model). -/
def isClassB (b : Nat) : Bool := !isWsB b && !(b = 59)

/-- First-byte prefilter of both nonuniform loops: ASCII digit, `-`, `+` or `.`
(lib.rs lines 103 and 206). -/
def prefilterB : List Nat → Bool
  | [] => false
  | b :: _ => isDigitB b || b = 45 || b = 43 || b = 46

/-- Value of a list of ASCII digit bytes. -/
def digitsToNat (l : List Nat) : Nat := l.foldl (fun a b => a * 10 + (b - 48)) 0

/-- Optional exponent part of the f64 grammar: empty input keeps the mantissa,
`e`/`E` with optional sign and at least one digit scales it, anything else fails. -/
def parseExpPart (s : List Nat) (mant : ℚ) : Option ℚ :=
  match s with
  | [] => some mant
  | b :: _ =>
    if b = 101 || b = 69 then
      let p : Bool × List Nat := match s.tail with
        | 45 :: r => (true, r)
        | 43 :: r => (false, r)
        | r => (false, r)
      let eDigits := p.2.takeWhile isDigitB
      let rest2 := p.2.dropWhile isDigitB
      if eDigits.isEmpty || !rest2.isEmpty then none
      else some (if p.1 then mant / 10 ^ digitsToNat eDigits else mant * 10 ^ digitsToNat eDigits)
    else none

/-- Unsigned part of the f64 grammar: digits, optional `.` and fraction digits
(at least one digit overall), then the optional exponent. -/
def parseUnsigned (s : List Nat) : Option ℚ :=
  let intDigits := s.takeWhile isDigitB
  let rest1 := s.dropWhile isDigitB
  match rest1 with
  | 46 :: rest2 =>
    let fracDigits := rest2.takeWhile isDigitB
    let rest3 := rest2.dropWhile isDigitB
    if intDigits.isEmpty && fracDigits.isEmpty then none
    else
      parseExpPart rest3
        ((digitsToNat intDigits : ℚ) + (digitsToNat fracDigits : ℚ) / 10 ^ fracDigits.length)
  | _ =>
    if intDigits.isEmpty then none
    else parseExpPart rest1 (digitsToNat intDigits)

/-- Model of `str::parse::<f64>` on finite decimal numerals: optional sign then the
unsigned grammar. Tokens that are not valid UTF-8 or not in the decimal grammar
yield `none` (the code skips them in exactly the same situations). -/
def parseDecimal (s : List Nat) : Option ℚ :=
  match s with
  | [] => none
  | b :: rest =>
    if b = 45 then (parseUnsigned rest).map (fun v => -v)
    else if b = 43 then parseUnsigned rest
    else parseUnsigned s

/-- First index `i ≥ i0` (the accumulator) at which `pat` occurs in `l`; models the
literal regex `find` of the regex crate. -/
def findSubstrAux (pat : List Nat) : List Nat → Nat → Option Nat
  | [], i => if pat.isPrefixOf [] then some i else none
  | a :: t, i => if pat.isPrefixOf (a :: t) then some i else findSubstrAux pat t (i + 1)

/-- First occurrence of the literal `pat` in `buf` (start offset). -/
def findSubstr (pat buf : List Nat) : Option Nat := findSubstrAux pat buf 0

/-- First index of byte `b` in `l`. -/
def findByteIdx (b : Nat) : List Nat → Option Nat
  | [] => none
  | a :: t => if a = b then some 0 else (findByteIdx b t).map (· + 1)

/-- First index `i ≥ off` with `buf[i] = b`; models the forward byte scan
`for i in offset..mmap.len()` of lib.rs lines 59-64. -/
def firstByteFrom (buf : List Nat) (b off : Nat) : Option Nat :=
  (findByteIdx b (buf.drop off)).map (· + off)

/-- Last index of byte `b` in `l`; models the backward scan
`for i in (start..end_limit).rev()` of lib.rs lines 83-88. -/
def findLastIdx (b : Nat) : List Nat → Option Nat
  | [] => none
  | a :: t =>
    match findLastIdx b t with
    | some i => some (i + 1)
    | none => if a = b then some 0 else none

-- Literal byte patterns of the compiled regexes.

/-- Bytes of the anchor literal `internalField`. -/
def internalFieldPat : List Nat := [105, 110, 116, 101, 114, 110, 97, 108, 70, 105, 101, 108, 100]

/-- Bytes of the literal `nonuniform`. -/
def nonuniformPat : List Nat := [110, 111, 110, 117, 110, 105, 102, 111, 114, 109]

/-- Bytes of the literal `boundaryField`. -/
def boundaryPat : List Nat := [98, 111, 117, 110, 100, 97, 114, 121, 70, 105, 101, 108, 100]

/-- Bytes of the literal `uniform` that heads the uniform regex. -/
def uniformLit : List Nat := [117, 110, 105, 102, 111, 114, 109]

/-- Branch `[^\s;]+` of the uniform regex alternation, followed by `;`:
maximal class run, then the terminating semicolon. Returns the capture. -/
def uniformBranchOne (r1 : List Nat) : Option (List Nat) :=
  let t := r1.takeWhile isClassB
  if t.isEmpty then none
  else
    match r1.drop t.length with
    | 59 :: _ => some t
    | _ => none

/-- Branch `[^\s;]+\s+[^\s;]+\s+[^\s;]+` of the uniform regex alternation,
followed by `;`. Returns the capture (the whole three-token span). -/
def uniformBranchTwo (r1 : List Nat) : Option (List Nat) :=
  let t1 := r1.takeWhile isClassB
  if t1.isEmpty then none
  else
    let r2 := r1.drop t1.length
    let s1 := r2.takeWhile isWsB
    if s1.isEmpty then none
    else
      let r3 := r2.drop s1.length
      let t2 := r3.takeWhile isClassB
      if t2.isEmpty then none
      else
        let r4 := r3.drop t2.length
        let s2 := r4.takeWhile isWsB
        if s2.isEmpty then none
        else
          let r5 := r4.drop s2.length
          let t3 := r5.takeWhile isClassB
          if t3.isEmpty then none
          else
            match r5.drop t3.length with
            | 59 :: _ => some (t1 ++ s1 ++ t2 ++ s2 ++ t3)
            | _ => none

/-- Branch `\([^\)]+\)` of the uniform regex alternation, followed by `;`.
Returns the capture including the parentheses. -/
def uniformBranchThree (r1 : List Nat) : Option (List Nat) :=
  match r1 with
  | 40 :: r2 =>
    let u := r2.takeWhile (fun b => !(b = 41))
    if u.isEmpty then none
    else
      match r2.drop u.length with
      | 41 :: 59 :: _ => some (40 :: (u ++ [41]))
      | _ => none
  | _ => none

/-- Match of the whole uniform regex `uniform\s+([^\s;]+|[^\s;]+\s+[^\s;]+\s+[^\s;]+|\([^\)]+\));`
at one position: the literal, one or more whitespace bytes, then the first
alternation branch that matches (leftmost-first preference of the regex crate;
since the class `[^\s;]`, the class `[^\)]` and `\s` are disjoint from the bytes
that must follow them, maximal munch is exact here). Returns capture group 1. -/
def matchUniformAt (l : List Nat) : Option (List Nat) :=
  if uniformLit.isPrefixOf l then
    let r0 := l.drop uniformLit.length
    let sp := r0.takeWhile isWsB
    if sp.isEmpty then none
    else
      let r1 := r0.drop sp.length
      (uniformBranchOne r1).orElse fun _ =>
        (uniformBranchTwo r1).orElse fun _ => uniformBranchThree r1
  else none

/-- Leftmost match of the uniform regex in `w` (capture group 1), as returned by
`get_re_uniform().captures(search_window)`. -/
def uniformCapture : List Nat → Option (List Nat)
  | [] => matchUniformAt []
  | a :: t =>
    match matchUniformAt (a :: t) with
    | some cap => some cap
    | none => uniformCapture t

/-- The bounded lookahead window after the anchor:
`&mmap[start_search..min(start_search + 500, mmap.len())]`. -/
def windowOf (buf : List Nat) (e : Nat) : List Nat := (buf.drop e).take 500

/-- End of the backward-search range: start offset of the first `boundaryField`
occurrence at or after `start`, or the buffer length when absent
(lib.rs lines 74-79). -/
def endLimitOf (buf : List Nat) (start : Nat) : Nat :=
  match findSubstr boundaryPat (buf.drop start) with
  | some k => start + k
  | none => buf.length

/-- The data region `&mmap[start+1..endAbs]`, as a slice of the buffer. -/
def regionOf (buf : List Nat) (start endAbs : Nat) : List Nat :=
  (buf.drop (start + 1)).take (endAbs - (start + 1))

/-- One step of the scalar accumulation loop (lib.rs lines 100-113): skip empty
chunks, prefilter on the first byte, then parse; on success add to the sum and
bump the count. -/
def sstep (acc : ℚ × Nat) (chunk : List Nat) : ℚ × Nat :=
  if chunk.isEmpty then acc
  else if prefilterB chunk then
    match parseDecimal chunk with
    | some v => (acc.1 + v, acc.2 + 1)
    | none => acc
  else acc

/-- Scalar accumulation and final test `if count > 0 { sum / count }`. -/
def scalarMean (chunks : List (List Nat)) : Option ℚ :=
  let p := chunks.foldl sstep ((0 : ℚ), (0 : Nat))
  if p.2 > 0 then some (p.1 / (p.2 : ℚ)) else none

/-- Mutable state of the vector accumulation loop: the three component sums, the
completed-triple count and `val_idx`. -/
structure VState where
  sx : ℚ
  sy : ℚ
  sz : ℚ
  count : Nat
  validx : Nat
deriving Repr, DecidableEq

/-- Initial vector accumulator state. -/
def vinit : VState := ⟨0, 0, 0, 0, 0⟩

/-- One step of the vector accumulation loop (lib.rs lines 204-223): on a
successful parse the value goes to the component selected by `val_idx`
(`0=x, 1=y, 2=z`, anything else discarded as in the Rust `_ => {}` arm), the
count is bumped on the z arm, and `val_idx` advances modulo 3; failed chunks
leave the whole state unchanged. -/
def vstep (st : VState) (chunk : List Nat) : VState :=
  if chunk.isEmpty then st
  else if prefilterB chunk then
    match parseDecimal chunk with
    | some v =>
      let st2 : VState := match st.validx with
        | 0 => { st with sx := st.sx + v }
        | 1 => { st with sy := st.sy + v }
        | 2 => { st with sz := st.sz + v, count := st.count + 1 }
        | _ => st
      { st2 with validx := (st.validx + 1) % 3 }
    | none => st
  else st

/-- Vector accumulation and final test `if count > 0 { sums / count }`,
returning the zero triple otherwise. -/
def vectorMean (chunks : List (List Nat)) : ℚ × ℚ × ℚ :=
  let st := chunks.foldl vstep vinit
  if st.count > 0 then (st.sx / (st.count : ℚ), st.sy / (st.count : ℚ), st.sz / (st.count : ℚ))
  else (0, 0, 0)

/-- Nonuniform continuation of parse_scalar_field from the absolute offset just
after the `nonuniform` match: first `(`, boundary-limited last `)`, then the
region mean (lib.rs lines 57-118). -/
def scalarNonuniformTail (buf : List Nat) (off : Nat) : Option ℚ :=
  match firstByteFrom buf 40 off with
  | none => none
  | some start =>
    match findLastIdx 41 ((buf.drop start).take (endLimitOf buf start - start)) with
    | none => none
    | some r => scalarMean ((regionOf buf start (start + r)).splitOnP isSplitByte)

/-- Uniform continuation of parse_scalar_field on the lookahead window: capture,
parse, return directly (lib.rs lines 120-132). -/
def scalarUniformTail (w : List Nat) : Option ℚ :=
  match uniformCapture w with
  | some cap =>
    match parseDecimal cap with
    | some v => some v
    | none => none
  | none => none

/-- parse_scalar_field on the mapped bytes (lib.rs lines 44-135): anchor search,
lookahead window, nonuniform or uniform continuation. -/
def parseScalarBytes (buf : List Nat) : Option ℚ :=
  match findSubstr internalFieldPat buf with
  | none => none
  | some s =>
    let e := s + internalFieldPat.length
    match findSubstr nonuniformPat (windowOf buf e) with
    | some j => scalarNonuniformTail buf (e + (j + nonuniformPat.length))
    | none => scalarUniformTail (windowOf buf e)

/-- Nonuniform continuation of parse_vector_field (lib.rs lines 162-229). -/
def vectorNonuniformTail (buf : List Nat) (off : Nat) : ℚ × ℚ × ℚ :=
  match firstByteFrom buf 40 off with
  | none => (0, 0, 0)
  | some start =>
    match findLastIdx 41 ((buf.drop start).take (endLimitOf buf start - start)) with
    | none => (0, 0, 0)
    | some r => vectorMean ((regionOf buf start (start + r)).splitOnP isSplitByteVec)

/-- Parse one captured vector component with the `unwrap_or(0.0)` fallback. -/
def parseOrZero (t : List Nat) : ℚ := (parseDecimal t).getD 0

/-- Rust `split_whitespace`: split on whitespace and drop empty pieces. -/
def splitWs (l : List Nat) : List (List Nat) :=
  (l.splitOnP isWsB).filter (fun c => !c.isEmpty)

/-- Uniform continuation of parse_vector_field on the lookahead window: capture,
strip `(` and `)`, split on whitespace, require exactly 3 parts, parse each with
fallback 0.0 (lib.rs lines 232-248). -/
def vectorUniformTail (w : List Nat) : ℚ × ℚ × ℚ :=
  match uniformCapture w with
  | some cap =>
    let clean := cap.filter (fun b => !(b = 40) && !(b = 41))
    match splitWs clean with
    | [p0, p1, p2] => (parseOrZero p0, parseOrZero p1, parseOrZero p2)
    | _ => (0, 0, 0)
  | none => (0, 0, 0)

/-- parse_vector_field on the mapped bytes (lib.rs lines 154-252). -/
def parseVectorBytes (buf : List Nat) : ℚ × ℚ × ℚ :=
  match findSubstr internalFieldPat buf with
  | none => (0, 0, 0)
  | some s =>
    let e := s + internalFieldPat.length
    match findSubstr nonuniformPat (windowOf buf e) with
    | some j => vectorNonuniformTail buf (e + (j + nonuniformPat.length))
    | none => vectorUniformTail (windowOf buf e)

/-- Outcomes of the filesystem steps performed by one call: the `path.exists()`
answer, then the results of `File::open`, `metadata().len()` and the mmap.
Errors are abstract codes. -/
structure Fs where
  ex : Bool
  openR : Except Nat Unit
  metaLen : Except Nat Nat
  mmapR : Except Nat (List Nat)

/-- parse_scalar_field (lib.rs lines 29-137): missing path and empty file give
`Ok(None)` before any mapping; I/O errors propagate via `?`; otherwise the byte
scan runs on the mapped contents. -/
def parse_scalar_field (fs : Fs) : Except Nat (Option ℚ) :=
  if fs.ex then
    match fs.openR with
    | .error er => .error er
    | .ok _ =>
      match fs.metaLen with
      | .error er => .error er
      | .ok len =>
        if len = 0 then .ok none
        else
          match fs.mmapR with
          | .error er => .error er
          | .ok buf => .ok (parseScalarBytes buf)
  else .ok none

/-- parse_vector_field (lib.rs lines 140-254), with the zero-triple absent result. -/
def parse_vector_field (fs : Fs) : Except Nat (ℚ × ℚ × ℚ) :=
  if fs.ex then
    match fs.openR with
    | .error er => .error er
    | .ok _ =>
      match fs.metaLen with
      | .error er => .error er
      | .ok len =>
        if len = 0 then .ok (0, 0, 0)
        else
          match fs.mmapR with
          | .error er => .error er
          | .ok buf => .ok (parseVectorBytes buf)
  else .ok (0, 0, 0)

/-- The three OnceLock slots (lib.rs lines 11-13). The two literal regexes are
stored as their byte pattern; the uniform regex is a fixed compiled object, so
its slot only records whether it was initialised. -/
structure Cache where
  reInternal : Option (List Nat)
  reNonuniform : Option (List Nat)
  reUniform : Option Unit
deriving Repr, DecidableEq

/-- The process state before any call: all three OnceLock slots empty. -/
def emptyCache : Cache := ⟨none, none, none⟩

/-- `OnceLock::get_or_init`: return the stored value, or store and return the
value built by the closure. -/
def getOrInit {α : Type} (slot : Option α) (v : α) : α × Option α :=
  match slot with
  | some x => (x, some x)
  | none => (v, some v)

/-- get_re_internal_field (lib.rs lines 15-17). -/
def get_re_internal_field (c : Cache) : List Nat × Cache :=
  let p := getOrInit c.reInternal internalFieldPat
  (p.1, { c with reInternal := p.2 })

/-- get_re_nonuniform (lib.rs lines 19-21). -/
def get_re_nonuniform (c : Cache) : List Nat × Cache :=
  let p := getOrInit c.reNonuniform nonuniformPat
  (p.1, { c with reNonuniform := p.2 })

/-- get_re_uniform (lib.rs lines 23-26); the compiled uniform regex itself is the
fixed matcher `uniformCapture`. -/
def get_re_uniform (c : Cache) : Unit × Cache :=
  let p := getOrInit c.reUniform ()
  (p.1, { c with reUniform := p.2 })

/-- A cache state reachable by the program: each OnceLock slot is either empty or
holds the value its unique initialising closure builds. -/
def ValidCache (c : Cache) : Prop :=
  (c.reInternal = none ∨ c.reInternal = some internalFieldPat) ∧
  (c.reNonuniform = none ∨ c.reNonuniform = some nonuniformPat)

/-- parse_scalar_field with the OnceLock state made explicit: each regex is
fetched through its slot exactly where the code fetches it (the boundaryField
regex is compiled afresh on line 74 and has no slot). -/
def parse_scalar_field_st (c : Cache) (fs : Fs) : Except Nat (Option ℚ) × Cache :=
  if fs.ex then
    match fs.openR with
    | .error er => (.error er, c)
    | .ok _ =>
      match fs.metaLen with
      | .error er => (.error er, c)
      | .ok len =>
        if len = 0 then (.ok none, c)
        else
          match fs.mmapR with
          | .error er => (.error er, c)
          | .ok buf =>
            let pi := get_re_internal_field c
            match findSubstr pi.1 buf with
            | none => (.ok none, pi.2)
            | some s =>
              let e := s + pi.1.length
              let pn := get_re_nonuniform pi.2
              match findSubstr pn.1 (windowOf buf e) with
              | some j => (.ok (scalarNonuniformTail buf (e + (j + pn.1.length))), pn.2)
              | none =>
                let pu := get_re_uniform pn.2
                (.ok (scalarUniformTail (windowOf buf e)), pu.2)
  else (.ok none, c)

/-- parse_vector_field with the OnceLock state made explicit. -/
def parse_vector_field_st (c : Cache) (fs : Fs) : Except Nat (ℚ × ℚ × ℚ) × Cache :=
  if fs.ex then
    match fs.openR with
    | .error er => (.error er, c)
    | .ok _ =>
      match fs.metaLen with
      | .error er => (.error er, c)
      | .ok len =>
        if len = 0 then (.ok (0, 0, 0), c)
        else
          match fs.mmapR with
          | .error er => (.error er, c)
          | .ok buf =>
            let pi := get_re_internal_field c
            match findSubstr pi.1 buf with
            | none => (.ok (0, 0, 0), pi.2)
            | some s =>
              let e := s + pi.1.length
              let pn := get_re_nonuniform pi.2
              match findSubstr pn.1 (windowOf buf e) with
              | some j => (.ok (vectorNonuniformTail buf (e + (j + pn.1.length))), pn.2)
              | none =>
                let pu := get_re_uniform pn.2
                (.ok (vectorUniformTail (windowOf buf e)), pu.2)
  else (.ok (0, 0, 0), c)

-- Specification-side vocabulary used to state the claims.

/-- The value a chunk contributes: `none` for empty chunks, chunks failing the
first-byte prefilter and chunks failing the decimal parse. -/
def acceptTok (chunk : List Nat) : Option ℚ :=
  if prefilterB chunk then parseDecimal chunk else none

/-- The accepted values of a region: split on `sp`, keep exactly the tokens that
pass the prefilter and parse. -/
def acceptedValues (sp : Nat → Bool) (region : List Nat) : List ℚ :=
  (region.splitOnP sp).filterMap acceptTok

/-- Sums of a value list distributed round-robin over three components, starting
at component `i` (`0=x, 1=y, 2=z`). -/
def cycleSums (i : Nat) : List ℚ → ℚ × ℚ × ℚ
  | [] => (0, 0, 0)
  | v :: vs =>
    let r := cycleSums ((i + 1) % 3) vs
    match i with
    | 0 => (r.1 + v, r.2.1, r.2.2)
    | 1 => (r.1, r.2.1 + v, r.2.2)
    | _ => (r.1, r.2.1, r.2.2 + v)

/-- Modelled from the words of claim C2 (not from the code): every chunk passing
the first-byte prefilter occupies the next slot of the x,y,z cycle whether or not
it parses; a value is added only when the parse succeeds, and the count advances
only on a successful parse in the z slot. -/
def claimVStep (st : VState) (chunk : List Nat) : VState :=
  if chunk.isEmpty then st
  else if prefilterB chunk then
    let st2 : VState := match parseDecimal chunk with
      | some v =>
        match st.validx with
        | 0 => { st with sx := st.sx + v }
        | 1 => { st with sy := st.sy + v }
        | 2 => { st with sz := st.sz + v, count := st.count + 1 }
        | _ => st
      | none => st
    { st2 with validx := (st.validx + 1) % 3 }
  else st

/-- Modelled from the words of claim C2: the mean triple predicted by the claim's
accumulation discipline for a chunk list. -/
def claimVectorMean (chunks : List (List Nat)) : ℚ × ℚ × ℚ :=
  let st := chunks.foldl claimVStep vinit
  if st.count > 0 then (st.sx / (st.count : ℚ), st.sy / (st.count : ℚ), st.sz / (st.count : ℚ))
  else (0, 0, 0)

-- Concrete files used as witnesses and counterexamples.

/-- Bytes of the file `internalField nonuniform (1 2 3 4)`. -/
def scalarNonuniBuf : List Nat := [105, 110, 116, 101, 114, 110, 97, 108, 70, 105, 101, 108, 100, 32, 110, 111, 110, 117, 110, 105, 102, 111, 114, 109, 32, 40, 49, 32, 50, 32, 51, 32, 52, 41]

/-- Bytes of the file `internalField uniform 7.5;`. -/
def scalarUniBuf : List Nat := [105, 110, 116, 101, 114, 110, 97, 108, 70, 105, 101, 108, 100, 32, 117, 110, 105, 102, 111, 114, 109, 32, 55, 46, 53, 59]

/-- Bytes of the file `internalField nonuniform ((1 0 0)(3 2 0))`. -/
def vectorNonuniBuf : List Nat := [105, 110, 116, 101, 114, 110, 97, 108, 70, 105, 101, 108, 100, 32, 110, 111, 110, 117, 110, 105, 102, 111, 114, 109, 32, 40, 40, 49, 32, 48, 32, 48, 41, 40, 51, 32, 50, 32, 48, 41, 41]

/-- Bytes of the file `internalField uniform (1 2 3);`. -/
def vectorUniBuf : List Nat := [105, 110, 116, 101, 114, 110, 97, 108, 70, 105, 101, 108, 100, 32, 117, 110, 105, 102, 111, 114, 109, 32, 40, 49, 32, 50, 32, 51, 41, 59]

/-- Bytes of the file `internalField nonuniform (1 2x 3)`: the token `2x` passes
the first-byte prefilter but fails the decimal parse. -/
def cexC2Buf : List Nat := [105, 110, 116, 101, 114, 110, 97, 108, 70, 105, 101, 108, 100, 32, 110, 111, 110, 117, 110, 105, 102, 111, 114, 109, 32, 40, 49, 32, 50, 120, 32, 51, 41]

/-- Bytes of the file `internalField nonuniform (1 2 3)boundaryField 9 9)`: a
later `)` exists after the `boundaryField` occurrence. -/
def boundaryBuf : List Nat := [105, 110, 116, 101, 114, 110, 97, 108, 70, 105, 101, 108, 100, 32, 110, 111, 110, 117, 110, 105, 102, 111, 114, 109, 32, 40, 49, 32, 50, 32, 51, 41, 98, 111, 117, 110, 100, 97, 114, 121, 70, 105, 101, 108, 100, 32, 57, 32, 57, 41]

/-- Bytes of the file `internalField nonuniform ((1 0 0)(3 2 0)(5 7))`: a
trailing incomplete pair after the last complete triple. -/
def trailingPairBuf : List Nat := [105, 110, 116, 101, 114, 110, 97, 108, 70, 105, 101, 108, 100, 32, 110, 111, 110, 117, 110, 105, 102, 111, 114, 109, 32, 40, 40, 49, 32, 48, 32, 48, 41, 40, 51, 32, 50, 32, 48, 41, 40, 53, 32, 55, 41, 41]

/-- Bytes of the file `internalField 1;`: the anchor occurs but the lookahead
window holds neither `nonuniform` nor a terminated `uniform ...;` pattern. -/
def noMarkerBuf : List Nat := [105, 110, 116, 101, 114, 110, 97, 108, 70, 105, 101, 108, 100, 32, 49, 59]

/-- Bytes of the file `internalField nonuniform (x y)`: a data region whose
tokens all fail the first-byte prefilter. -/
def allSkipBuf : List Nat := [105, 110, 116, 101, 114, 110, 97, 108, 70, 105, 101, 108, 100, 32, 110, 111, 110, 117, 110, 105, 102, 111, 114, 109, 32, 40, 120, 32, 121, 41]

/-- Continuation of the scalar nonuniform path as a function of the byte segment
`buf[start..start+k)` alone, `k` being the offset of the `boundaryField`
occurrence relative to `start`: last `)` inside the segment, then the mean of
the region strictly between the `(` at segment head and that `)`. -/
def scalarRegionStep (seg : List Nat) : Option ℚ :=
  match findLastIdx 41 seg with
  | none => none
  | some r => scalarMean (((seg.drop 1).take (r - 1)).splitOnP isSplitByte)

/-- Vector analogue of `scalarRegionStep`. -/
def vectorRegionStep (seg : List Nat) : ℚ × ℚ × ℚ :=
  match findLastIdx 41 seg with
  | none => (0, 0, 0)
  | some r => vectorMean (((seg.drop 1).take (r - 1)).splitOnP isSplitByteVec)

/-- Effect of one successfully parsed value on the vector state: the
successful-parse branch shared by `vstep` and `claimVStep`. -/
def vapply (st : VState) (v : ℚ) : VState :=
  let st2 : VState := match st.validx with
    | 0 => { st with sx := st.sx + v }
    | 1 => { st with sy := st.sy + v }
    | 2 => { st with sz := st.sz + v, count := st.count + 1 }
    | _ => st
  { st2 with validx := (st.validx + 1) % 3 }

-- Infrastructure lemmas.

theorem sstep_eq (acc : ℚ × Nat) (chunk : List Nat) :
    sstep acc chunk =
      match acceptTok chunk with
      | some v => (acc.1 + v, acc.2 + 1)
      | none => acc := by
  cases chunk with
  | nil => simp [sstep, acceptTok, prefilterB]
  | cons b t =>
    by_cases hp : prefilterB (b :: t)
    · cases hpd : parseDecimal (b :: t) <;> simp [sstep, acceptTok, hp, hpd]
    · simp [sstep, acceptTok, hp]

theorem scalar_foldl (chunks : List (List Nat)) :
    ∀ (q : ℚ) (n : Nat),
      chunks.foldl sstep (q, n) =
        (q + (chunks.filterMap acceptTok).sum, n + (chunks.filterMap acceptTok).length) := by
  induction chunks with
  | nil => intro q n; simp
  | cons c cs ih =>
    intro q n
    rw [List.foldl_cons, sstep_eq]
    cases hc : acceptTok c with
    | none => simp [List.filterMap_cons, hc, ih q n]
    | some v =>
      simp only [List.filterMap_cons, hc, ih (q + v) (n + 1), List.sum_cons, List.length_cons]
      refine Prod.ext ?_ ?_
      · simp [add_assoc]
      · simp only [Prod.snd]
        omega

theorem scalarMean_eq (chunks : List (List Nat)) :
    scalarMean chunks =
      if 0 < (chunks.filterMap acceptTok).length then
        some ((chunks.filterMap acceptTok).sum / ((chunks.filterMap acceptTok).length : ℚ))
      else none := by
  unfold scalarMean
  rw [scalar_foldl chunks 0 0]
  simp

theorem vstep_eq (st : VState) (chunk : List Nat) :
    vstep st chunk =
      match acceptTok chunk with
      | some v => vapply st v
      | none => st := by
  cases chunk with
  | nil => simp [vstep, acceptTok, prefilterB]
  | cons b t =>
    by_cases hp : prefilterB (b :: t)
    · cases hpd : parseDecimal (b :: t) <;> simp [vstep, vapply, acceptTok, hp, hpd]
    · simp [vstep, acceptTok, hp]

theorem vector_foldl (chunks : List (List Nat)) :
    ∀ st : VState, chunks.foldl vstep st = (chunks.filterMap acceptTok).foldl vapply st := by
  induction chunks with
  | nil => intro st; rfl
  | cons c cs ih =>
    intro st
    rw [List.foldl_cons, vstep_eq]
    cases hc : acceptTok c <;> simp [List.filterMap_cons, hc, ih]

theorem vapply_foldl (vals : List ℚ) :
    ∀ (sx sy sz : ℚ) (c i : Nat), i < 3 →
      vals.foldl vapply ⟨sx, sy, sz, c, i⟩ =
        ⟨sx + (cycleSums i vals).1, sy + (cycleSums i vals).2.1, sz + (cycleSums i vals).2.2,
         c + (i + vals.length) / 3, (i + vals.length) % 3⟩ := by
  induction vals with
  | nil =>
    intro sx sy sz c i hi
    simp [cycleSums, Nat.div_eq_of_lt hi, Nat.mod_eq_of_lt hi]
  | cons v vs ih =>
    intro sx sy sz c i hi
    rw [List.foldl_cons]
    interval_cases i
    · rw [show vapply ⟨sx, sy, sz, c, 0⟩ v = ⟨sx + v, sy, sz, c, 1⟩ by simp [vapply],
        ih _ _ _ _ 1 (by norm_num)]
      simp only [cycleSums, VState.mk.injEq, List.length_cons]
      refine ⟨by ring_nf, by ring_nf, by ring_nf, by omega, by omega⟩
    · rw [show vapply ⟨sx, sy, sz, c, 1⟩ v = ⟨sx, sy + v, sz, c, 2⟩ by simp [vapply],
        ih _ _ _ _ 2 (by norm_num)]
      simp only [cycleSums, VState.mk.injEq, List.length_cons]
      refine ⟨by ring_nf, by ring_nf, by ring_nf, by omega, by omega⟩
    · rw [show vapply ⟨sx, sy, sz, c, 2⟩ v = ⟨sx, sy, sz + v, c + 1, 0⟩ by simp [vapply],
        ih _ _ _ _ 0 (by norm_num)]
      simp only [cycleSums, VState.mk.injEq, List.length_cons]
      refine ⟨by ring_nf, by ring_nf, by ring_nf, by omega, by omega⟩

theorem vectorMean_eq (chunks : List (List Nat)) :
    vectorMean chunks =
      if 0 < (chunks.filterMap acceptTok).length / 3 then
        ((cycleSums 0 (chunks.filterMap acceptTok)).1 / (((chunks.filterMap acceptTok).length / 3 : Nat) : ℚ),
         (cycleSums 0 (chunks.filterMap acceptTok)).2.1 / (((chunks.filterMap acceptTok).length / 3 : Nat) : ℚ),
         (cycleSums 0 (chunks.filterMap acceptTok)).2.2 / (((chunks.filterMap acceptTok).length / 3 : Nat) : ℚ))
      else (0, 0, 0) := by
  unfold vectorMean vinit
  rw [vector_foldl, vapply_foldl _ 0 0 0 0 0 (by norm_num)]
  simp
theorem findSubstrAux_ge (pat : List Nat) :
    ∀ (l : List Nat) (i j : Nat), findSubstrAux pat l i = some j → i ≤ j := by
  intro l
  induction l with
  | nil =>
    intro i j h
    unfold findSubstrAux at h
    split at h
    · injection h with h
      omega
    · cases h
  | cons a t ih =>
    intro i j h
    unfold findSubstrAux at h
    split at h
    · injection h with h
      omega
    · exact le_trans (Nat.le_succ i) (ih (i + 1) j h)

theorem findSubstrAux_prefixOf (pat : List Nat) :
    ∀ (l : List Nat) (i j : Nat), findSubstrAux pat l i = some j →
      pat.isPrefixOf (l.drop (j - i)) := by
  intro l
  induction l with
  | nil =>
    intro i j h
    unfold findSubstrAux at h
    split at h
    next hc =>
      injection h with h
      subst h
      simpa using hc
    next => cases h
  | cons a t ih =>
    intro i j h
    unfold findSubstrAux at h
    split at h
    next hc =>
      injection h with h
      subst h
      simpa using hc
    next =>
      have hge := findSubstrAux_ge pat t (i + 1) j h
      have hp := ih (i + 1) j h
      have hd : j - i = (j - (i + 1)) + 1 := by omega
      rw [hd]
      simpa using hp

theorem findSubstr_prefixOf {pat buf : List Nat} {k : Nat} (h : findSubstr pat buf = some k) :
    pat.isPrefixOf (buf.drop k) := by
  have := findSubstrAux_prefixOf pat buf 0 k h
  simpa using this

theorem findSubstr_bound {pat buf : List Nat} {k : Nat} (hne : pat ≠ [])
    (h : findSubstr pat buf = some k) : k + pat.length ≤ buf.length := by
  have hp := findSubstr_prefixOf h
  rw [List.isPrefixOf_iff_prefix] at hp
  have hlen := hp.length_le
  rw [List.length_drop] at hlen
  by_cases hk : k ≤ buf.length
  · have hpos : 0 < pat.length := List.length_pos.mpr hne
    omega
  · exfalso
    have hnil : buf.drop k = [] := List.drop_eq_nil_of_le (by omega)
    rw [hnil, List.prefix_nil] at hp
    exact hne hp

theorem findByteIdx_spec (b : Nat) :
    ∀ (l : List Nat) (i : Nat), findByteIdx b l = some i → i < l.length ∧ l[i]? = some b := by
  intro l
  induction l with
  | nil =>
    intro i h
    cases h
  | cons a t ih =>
    intro i h
    unfold findByteIdx at h
    split at h
    next hc =>
      injection h with h
      subst h
      refine ⟨by simp, ?_⟩
      simpa using congrArg some hc
    next =>
      match hm : findByteIdx b t with
      | none =>
        rw [hm] at h
        cases h
      | some m =>
        rw [hm] at h
        simp only [Option.map] at h
        injection h with h
        subst h
        obtain ⟨h1, h2⟩ := ih m hm
        refine ⟨by simpa using Nat.succ_lt_succ h1, by simpa using h2⟩

theorem firstByteFrom_spec {buf : List Nat} {b off j : Nat}
    (h : firstByteFrom buf b off = some j) :
    off ≤ j ∧ j < buf.length ∧ buf[j]? = some b := by
  unfold firstByteFrom at h
  match hm : findByteIdx b (buf.drop off) with
  | none =>
    rw [hm] at h
    cases h
  | some m =>
    rw [hm] at h
    simp only [Option.map] at h
    injection h with h
    obtain ⟨h1, h2⟩ := findByteIdx_spec b (buf.drop off) m hm
    rw [List.length_drop] at h1
    rw [List.getElem?_drop] at h2
    subst h
    refine ⟨by omega, by omega, ?_⟩
    rw [Nat.add_comm m off]
    exact h2

theorem findLastIdx_spec (b : Nat) :
    ∀ (l : List Nat) (r : Nat), findLastIdx b l = some r → r < l.length ∧ l[r]? = some b := by
  intro l
  induction l with
  | nil =>
    intro r h
    cases h
  | cons a t ih =>
    intro r h
    simp only [findLastIdx] at h
    cases hm : findLastIdx b t with
    | some i =>
      simp only [hm] at h
      injection h with h
      subst h
      obtain ⟨h1, h2⟩ := ih i hm
      refine ⟨by simpa using Nat.succ_lt_succ h1, by simpa using h2⟩
    | none =>
      simp only [hm] at h
      by_cases hab : a = b
      · simp only [hab, if_true] at h
        injection h with h
        subst h
        refine ⟨by simp, by simp [hab]⟩
      · simp [hab] at h

/-- C4: for a missing path, for an existing zero-length file, for contents
without the `internalField` anchor, and for contents where the lookahead window
after the anchor holds neither `nonuniform` nor a terminated `uniform ...;`
pattern, parse_scalar_field returns None and parse_vector_field returns
(0,0,0); in the missing and zero-length cases this is immediate, for every
possible mapped content. -/
theorem c4_absent_cases :
    (∀ (o : Except Nat Unit) (m : Except Nat Nat) (r : Except Nat (List Nat)),
       parse_scalar_field ⟨false, o, m, r⟩ = .ok none ∧
       parse_vector_field ⟨false, o, m, r⟩ = .ok (0, 0, 0)) ∧
    (∀ r : Except Nat (List Nat),
       parse_scalar_field ⟨true, .ok (), .ok 0, r⟩ = .ok none ∧
       parse_vector_field ⟨true, .ok (), .ok 0, r⟩ = .ok (0, 0, 0)) ∧
    (∀ (n : Nat) (buf : List Nat), n ≠ 0 →
       findSubstr internalFieldPat buf = none →
       parse_scalar_field ⟨true, .ok (), .ok n, .ok buf⟩ = .ok none ∧
       parse_vector_field ⟨true, .ok (), .ok n, .ok buf⟩ = .ok (0, 0, 0)) ∧
    (∀ (n : Nat) (buf : List Nat) (s : Nat), n ≠ 0 →
       findSubstr internalFieldPat buf = some s →
       findSubstr nonuniformPat (windowOf buf (s + internalFieldPat.length)) = none →
       uniformCapture (windowOf buf (s + internalFieldPat.length)) = none →
       parse_scalar_field ⟨true, .ok (), .ok n, .ok buf⟩ = .ok none ∧
       parse_vector_field ⟨true, .ok (), .ok n, .ok buf⟩ = .ok (0, 0, 0)) := by
  refine ⟨?_, ?_, ?_, ?_⟩
  · intro o m r
    exact ⟨rfl, rfl⟩
  · intro r
    exact ⟨rfl, rfl⟩
  · intro n buf hn h
    constructor
    · simp [parse_scalar_field, parseScalarBytes, hn, h]
    · simp [parse_vector_field, parseVectorBytes, hn, h]
  · intro n buf s hn h1 h2 h3
    constructor
    · simp [parse_scalar_field, parseScalarBytes, scalarUniformTail, hn, h1, h2, h3]
    · simp [parse_vector_field, parseVectorBytes, vectorUniformTail, hn, h1, h2, h3]

/-- Witness for C4: the four absent cases at concrete inputs. -/
theorem c4_witness :
    parse_scalar_field ⟨false, .ok (), .ok 5, .ok [49]⟩ = .ok none ∧
    parse_vector_field ⟨true, .ok (), .ok 0, .ok [49]⟩ = .ok (0, 0, 0) ∧
    parse_scalar_field ⟨true, .ok (), .ok 1, .ok [120]⟩ = .ok none ∧
    parse_vector_field ⟨true, .ok (), .ok 16, .ok noMarkerBuf⟩ = .ok (0, 0, 0) :=
  ⟨(c4_absent_cases.1 (.ok ()) (.ok 5) (.ok [49])).1,
   (c4_absent_cases.2.1 (.ok [49])).2,
   (c4_absent_cases.2.2.1 1 [120] (by decide) (by decide)).1,
   (c4_absent_cases.2.2.2 16 noMarkerBuf 0 (by decide) (by decide) (by decide) (by decide)).2⟩

/-- C5: when the path exists, a failure of File::open, of the metadata read, or
of the memory mapping (after a nonzero length was read) is propagated as a hard
error by both operations, never converted to the absent result. -/
theorem c5_io_error_propagates :
    (∀ (er : Nat) (m : Except Nat Nat) (r : Except Nat (List Nat)),
       parse_scalar_field ⟨true, .error er, m, r⟩ = .error er ∧
       parse_vector_field ⟨true, .error er, m, r⟩ = .error er) ∧
    (∀ (er : Nat) (r : Except Nat (List Nat)),
       parse_scalar_field ⟨true, .ok (), .error er, r⟩ = .error er ∧
       parse_vector_field ⟨true, .ok (), .error er, r⟩ = .error er) ∧
    (∀ (er : Nat) (n : Nat), n ≠ 0 →
       parse_scalar_field ⟨true, .ok (), .ok n, .error er⟩ = .error er ∧
       parse_vector_field ⟨true, .ok (), .ok n, .error er⟩ = .error er) := by
  refine ⟨?_, ?_, ?_⟩
  · intro er m r
    exact ⟨rfl, rfl⟩
  · intro er r
    exact ⟨rfl, rfl⟩
  · intro er n hn
    constructor
    · simp [parse_scalar_field, hn]
    · simp [parse_vector_field, hn]

/-- Witness for C5: a permission-denied style error code 13 propagates from each
of the three failing steps. -/
theorem c5_witness :
    parse_scalar_field ⟨true, .error 13, .ok 7, .ok [49]⟩ = .error 13 ∧
    parse_vector_field ⟨true, .ok (), .error 13, .ok [49]⟩ = .error 13 ∧
    parse_scalar_field ⟨true, .ok (), .ok 7, .error 13⟩ = .error 13 :=
  ⟨(c5_io_error_propagates.1 13 (.ok 7) (.ok [49])).1,
   (c5_io_error_propagates.2.1 13 (.ok [49])).2,
   (c5_io_error_propagates.2.2 13 7 (by decide)).1⟩

/-- C6: in the uniform path of parse_scalar_field (anchor found, no `nonuniform`
in the window, uniform pattern captured), the captured token's parsed value is
returned directly as Some(value), with no averaging division applied. -/
theorem c6_scalar_uniform_direct (n : Nat) (buf cap : List Nat) (s : Nat) (v : ℚ)
    (hn : n ≠ 0)
    (h1 : findSubstr internalFieldPat buf = some s)
    (h2 : findSubstr nonuniformPat (windowOf buf (s + internalFieldPat.length)) = none)
    (h3 : uniformCapture (windowOf buf (s + internalFieldPat.length)) = some cap)
    (h4 : parseDecimal cap = some v) :
    parse_scalar_field ⟨true, .ok (), .ok n, .ok buf⟩ = .ok (some v) := by
  simp [parse_scalar_field, parseScalarBytes, scalarUniformTail, hn, h1, h2, h3, h4]

/-- Witness for C6: the file `internalField uniform 7.5;` yields exactly 7.5. -/
theorem c6_witness :
    parse_scalar_field ⟨true, .ok (), .ok 26, .ok scalarUniBuf⟩ = .ok (some (15 / 2)) := by
  have h := c6_scalar_uniform_direct 26 scalarUniBuf [55, 46, 53] 0 (15 / 2)
    (by decide) (by decide) (by decide) (by decide)
    (by norm_num [parseDecimal, parseUnsigned, parseExpPart, digitsToNat, isDigitB])
  exact h

/-- C9: in the uniform path of parse_scalar_field, a captured value that fails
the decimal parse (such as the parenthesized capture of a vector field) gives
None, not an error and not 0.0. -/
theorem c9_scalar_uniform_unparsable (n : Nat) (buf cap : List Nat) (s : Nat)
    (hn : n ≠ 0)
    (h1 : findSubstr internalFieldPat buf = some s)
    (h2 : findSubstr nonuniformPat (windowOf buf (s + internalFieldPat.length)) = none)
    (h3 : uniformCapture (windowOf buf (s + internalFieldPat.length)) = some cap)
    (h4 : parseDecimal cap = none) :
    parse_scalar_field ⟨true, .ok (), .ok n, .ok buf⟩ = .ok none := by
  simp [parse_scalar_field, parseScalarBytes, scalarUniformTail, hn, h1, h2, h3, h4]

/-- Witness for C9: parse_scalar_field on the vector file
`internalField uniform (1 2 3);` yields None (the capture `(1 2 3)` does not
parse as a number). -/
theorem c9_witness :
    parse_scalar_field ⟨true, .ok (), .ok 30, .ok vectorUniBuf⟩ = .ok none := by
  have h := c9_scalar_uniform_unparsable 30 vectorUniBuf [40, 49, 32, 50, 32, 51, 41] 0
    (by decide) (by decide) (by decide) (by decide) (by decide)
  exact h

/-- C7: in the uniform path of parse_vector_field, the capture has all `(` and
`)` stripped and is split on whitespace; with exactly 3 parts, each part is
parsed with a 0.0 fallback on individual parse failure, and that triple is
returned. -/
theorem c7_vector_uniform_triple (n : Nat) (buf cap p0 p1 p2 : List Nat) (s : Nat)
    (hn : n ≠ 0)
    (h1 : findSubstr internalFieldPat buf = some s)
    (h2 : findSubstr nonuniformPat (windowOf buf (s + internalFieldPat.length)) = none)
    (h3 : uniformCapture (windowOf buf (s + internalFieldPat.length)) = some cap)
    (h4 : splitWs (cap.filter (fun b => !(b = 40) && !(b = 41))) = [p0, p1, p2]) :
    parse_vector_field ⟨true, .ok (), .ok n, .ok buf⟩ =
      .ok (parseOrZero p0, parseOrZero p1, parseOrZero p2) := by
  simp [parse_vector_field, parseVectorBytes, vectorUniformTail, hn, h1, h2, h3, h4]

/-- Witness for C7: the file `internalField uniform (1 2 3);` yields exactly
(1.0, 2.0, 3.0). -/
theorem c7_witness :
    parse_vector_field ⟨true, .ok (), .ok 30, .ok vectorUniBuf⟩ = .ok (1, 2, 3) := by
  have h := c7_vector_uniform_triple 30 vectorUniBuf [40, 49, 32, 50, 32, 51, 41]
    [49] [50] [51] 0 (by decide) (by decide) (by decide) (by decide) (by decide)
  rw [h]
  norm_num [parseOrZero, parseDecimal, parseUnsigned, parseExpPart, digitsToNat, isDigitB]

/-- C1: on a file whose anchor is followed in the window by `nonuniform`, with a
data region delimited by `(` and the boundary-limited last `)`, parse_scalar_field
returns Some of the arithmetic mean (sum over count) of exactly those
whitespace-separated region tokens that pass the first-byte prefilter and parse
as decimal numbers; all other tokens contribute to neither the sum nor the
count. -/
theorem c1_scalar_nonuniform_mean (n : Nat) (buf : List Nat) (s j start r : Nat)
    (hn : n ≠ 0)
    (h1 : findSubstr internalFieldPat buf = some s)
    (h2 : findSubstr nonuniformPat (windowOf buf (s + internalFieldPat.length)) = some j)
    (h3 : firstByteFrom buf 40 (s + internalFieldPat.length + (j + nonuniformPat.length)) = some start)
    (h4 : findLastIdx 41 ((buf.drop start).take (endLimitOf buf start - start)) = some r)
    (h5 : 0 < (acceptedValues isSplitByte (regionOf buf start (start + r))).length) :
    parse_scalar_field ⟨true, .ok (), .ok n, .ok buf⟩ =
      .ok (some ((acceptedValues isSplitByte (regionOf buf start (start + r))).sum /
        ((acceptedValues isSplitByte (regionOf buf start (start + r))).length : ℚ))) := by
  have hb : parseScalarBytes buf =
      some ((acceptedValues isSplitByte (regionOf buf start (start + r))).sum /
        ((acceptedValues isSplitByte (regionOf buf start (start + r))).length : ℚ)) := by
    simp only [parseScalarBytes, h1, h2, scalarNonuniformTail, h3, h4]
    rw [scalarMean_eq]
    simp only [acceptedValues] at h5 ⊢
    rw [if_pos h5]
  simp [parse_scalar_field, hn, hb]

/-- Witness for C1: the file `internalField nonuniform (1 2 3 4)` yields the
mean 5/2 of the four region tokens. -/
theorem c1_witness :
    parse_scalar_field ⟨true, .ok (), .ok 34, .ok scalarNonuniBuf⟩ = .ok (some (5 / 2)) := by
  have h := c1_scalar_nonuniform_mean 34 scalarNonuniBuf 0 1 25 8
    (by decide) (by decide) (by decide) (by decide) (by decide)
    (by
      rw [show acceptedValues isSplitByte (regionOf scalarNonuniBuf 25 (25 + 8)) =
          ([[49], [50], [51], [52]].filterMap acceptTok) by decide]
      norm_num [List.filterMap_cons, acceptTok, prefilterB, isDigitB, parseDecimal,
        parseUnsigned, parseExpPart, digitsToNat])
  rw [h]
  rw [show acceptedValues isSplitByte (regionOf scalarNonuniBuf 25 (25 + 8)) =
      ([[49], [50], [51], [52]].filterMap acceptTok) by decide]
  norm_num [List.filterMap_cons, acceptTok, prefilterB, isDigitB, parseDecimal,
    parseUnsigned, parseExpPart, digitsToNat]

/-- C2 (amended): in the nonuniform path of parse_vector_field, the tokens that
pass the first-byte prefilter and parse successfully are consumed in a strict
repeating cycle of 3 as x, y, z (a prefilter-passing token that fails to parse
is skipped without occupying a slot); the count equals the number of completed
triples, trailing incomplete values add to the x/y sums but not to the count,
and the result is the component sums divided by the completed-triple count, or
the zero triple when no triple completed. -/
theorem c2_amended_vector_cycle (n : Nat) (buf : List Nat) (s j start r : Nat)
    (hn : n ≠ 0)
    (h1 : findSubstr internalFieldPat buf = some s)
    (h2 : findSubstr nonuniformPat (windowOf buf (s + internalFieldPat.length)) = some j)
    (h3 : firstByteFrom buf 40 (s + internalFieldPat.length + (j + nonuniformPat.length)) = some start)
    (h4 : findLastIdx 41 ((buf.drop start).take (endLimitOf buf start - start)) = some r) :
    parse_vector_field ⟨true, .ok (), .ok n, .ok buf⟩ =
      .ok (if 0 < (acceptedValues isSplitByteVec (regionOf buf start (start + r))).length / 3 then
        ((cycleSums 0 (acceptedValues isSplitByteVec (regionOf buf start (start + r)))).1 /
           (((acceptedValues isSplitByteVec (regionOf buf start (start + r))).length / 3 : Nat) : ℚ),
         (cycleSums 0 (acceptedValues isSplitByteVec (regionOf buf start (start + r)))).2.1 /
           (((acceptedValues isSplitByteVec (regionOf buf start (start + r))).length / 3 : Nat) : ℚ),
         (cycleSums 0 (acceptedValues isSplitByteVec (regionOf buf start (start + r)))).2.2 /
           (((acceptedValues isSplitByteVec (regionOf buf start (start + r))).length / 3 : Nat) : ℚ))
      else (0, 0, 0)) := by
  have hb : parseVectorBytes buf =
      (if 0 < (acceptedValues isSplitByteVec (regionOf buf start (start + r))).length / 3 then
        ((cycleSums 0 (acceptedValues isSplitByteVec (regionOf buf start (start + r)))).1 /
           (((acceptedValues isSplitByteVec (regionOf buf start (start + r))).length / 3 : Nat) : ℚ),
         (cycleSums 0 (acceptedValues isSplitByteVec (regionOf buf start (start + r)))).2.1 /
           (((acceptedValues isSplitByteVec (regionOf buf start (start + r))).length / 3 : Nat) : ℚ),
         (cycleSums 0 (acceptedValues isSplitByteVec (regionOf buf start (start + r)))).2.2 /
           (((acceptedValues isSplitByteVec (regionOf buf start (start + r))).length / 3 : Nat) : ℚ))
      else (0, 0, 0)) := by
    simp only [parseVectorBytes, h1, h2, vectorNonuniformTail, h3, h4]
    rw [vectorMean_eq]
    simp only [acceptedValues]
  simp [parse_vector_field, hn, hb]

/-- Counterexample to C2 as stated: on `internalField nonuniform (1 2x 3)` the
token `2x` passes the prefilter but fails to parse; the claim's accumulation
discipline (prefilter-passing tokens occupy cycle slots) predicts the triple
(1, 0, 3), while parse_vector_field returns (0, 0, 0) because the code advances
the cycle only on a successful parse, so `3` lands in the y slot and no triple
completes. -/
theorem c2_counterexample :
    parse_vector_field ⟨true, .ok (), .ok 33, .ok cexC2Buf⟩ = .ok (0, 0, 0) ∧
    claimVectorMean ((regionOf cexC2Buf 25 (25 + 7)).splitOnP isSplitByteVec) = (1, 0, 3) ∧
    ((0, 0, 0) : ℚ × ℚ × ℚ) ≠ (1, 0, 3) := by
  refine ⟨?_, ?_, by norm_num [Prod.ext_iff]⟩
  · have hb : parseVectorBytes cexC2Buf = (0, 0, 0) := by
      simp only [parseVectorBytes,
        show findSubstr internalFieldPat cexC2Buf = some 0 from by decide,
        show findSubstr nonuniformPat (windowOf cexC2Buf (0 + internalFieldPat.length)) = some 1
          from by decide,
        vectorNonuniformTail,
        show firstByteFrom cexC2Buf 40 (0 + internalFieldPat.length + (1 + nonuniformPat.length)) =
          some 25 from by decide,
        show findLastIdx 41 ((cexC2Buf.drop 25).take (endLimitOf cexC2Buf 25 - 25)) = some 7
          from by decide]
      rw [vectorMean_eq,
        show (regionOf cexC2Buf 25 (25 + 7)).splitOnP isSplitByteVec = [[49], [50, 120], [51]]
          from by decide]
      norm_num [List.filterMap_cons, acceptTok, prefilterB, isDigitB, parseDecimal,
        parseUnsigned, parseExpPart, digitsToNat]
    simp [parse_vector_field, hb]
  · rw [show (regionOf cexC2Buf 25 (25 + 7)).splitOnP isSplitByteVec = [[49], [50, 120], [51]]
      from by decide]
    norm_num [claimVectorMean, claimVStep, vinit, prefilterB, isDigitB, parseDecimal,
      parseUnsigned, parseExpPart, digitsToNat]

/-- Witness for the amended C2: `internalField nonuniform ((1 0 0)(3 2 0))`
yields (2, 1, 0), and `internalField nonuniform ((1 0 0)(3 2 0)(5 7))`, whose
trailing pair feeds the x/y sums but completes no third triple, yields
(9/2, 9/2, 0). -/
theorem c2_witness :
    parse_vector_field ⟨true, .ok (), .ok 41, .ok vectorNonuniBuf⟩ = .ok (2, 1, 0) ∧
    parse_vector_field ⟨true, .ok (), .ok 46, .ok trailingPairBuf⟩ = .ok (9 / 2, 9 / 2, 0) := by
  constructor
  · have h := c2_amended_vector_cycle 41 vectorNonuniBuf 0 1 25 15
      (by decide) (by decide) (by decide) (by decide) (by decide)
    rw [h,
      show acceptedValues isSplitByteVec (regionOf vectorNonuniBuf 25 (25 + 15)) =
        ([[49], [48], [48], [51], [50], [48]].filterMap acceptTok) from by decide]
    norm_num [List.filterMap_cons, acceptTok, prefilterB, isDigitB, parseDecimal,
      parseUnsigned, parseExpPart, digitsToNat, cycleSums]
  · have h := c2_amended_vector_cycle 46 trailingPairBuf 0 1 25 20
      (by decide) (by decide) (by decide) (by decide) (by decide)
    rw [h,
      show acceptedValues isSplitByteVec (regionOf trailingPairBuf 25 (25 + 20)) =
        ([[49], [48], [48], [51], [50], [48], [53], [55]].filterMap acceptTok) from by decide]
    norm_num [List.filterMap_cons, acceptTok, prefilterB, isDigitB, parseDecimal,
      parseUnsigned, parseExpPart, digitsToNat, cycleSums]

/-- C3: in the nonuniform path of both operations, when `boundaryField` occurs
at offset `k` of `buf.drop start` (its first occurrence at or after the opening
parenthesis at `start`), the whole remaining computation — the backward scan for
the last `)` and the region that feeds the sums and count — is a function of the
byte segment `buf[start..start+k)` strictly before that occurrence; bytes at or
after the occurrence, including any later `)`, cannot contribute. -/
theorem c3_boundary_truncation (buf : List Nat) (s j start k : Nat)
    (h1 : findSubstr internalFieldPat buf = some s)
    (h2 : findSubstr nonuniformPat (windowOf buf (s + internalFieldPat.length)) = some j)
    (h3 : firstByteFrom buf 40 (s + internalFieldPat.length + (j + nonuniformPat.length)) = some start)
    (h4 : findSubstr boundaryPat (buf.drop start) = some k) :
    parseScalarBytes buf = scalarRegionStep ((buf.drop start).take k) ∧
    parseVectorBytes buf = vectorRegionStep ((buf.drop start).take k) := by
  have hTake : endLimitOf buf start - start = k := by
    simp only [endLimitOf, h4]
    omega
  constructor
  · simp only [parseScalarBytes, h1, h2, scalarNonuniformTail, h3, hTake]
    cases hL : findLastIdx 41 ((buf.drop start).take k) with
    | none => simp [scalarRegionStep, hL]
    | some r =>
      obtain ⟨hrlt, hrat⟩ := findLastIdx_spec 41 _ r hL
      rw [List.length_take] at hrlt
      have hReg : regionOf buf start (start + r) = (((buf.drop start).take k).drop 1).take (r - 1) := by
        rw [List.drop_take, List.drop_drop, List.take_take]
        unfold regionOf
        congr 1
        omega
      simp only [scalarRegionStep, hL, hReg]
  · simp only [parseVectorBytes, h1, h2, vectorNonuniformTail, h3, hTake]
    cases hL : findLastIdx 41 ((buf.drop start).take k) with
    | none => simp [vectorRegionStep, hL]
    | some r =>
      obtain ⟨hrlt, hrat⟩ := findLastIdx_spec 41 _ r hL
      rw [List.length_take] at hrlt
      have hReg : regionOf buf start (start + r) = (((buf.drop start).take k).drop 1).take (r - 1) := by
        rw [List.drop_take, List.drop_drop, List.take_take]
        unfold regionOf
        congr 1
        omega
      simp only [vectorRegionStep, hL, hReg]

/-- Witness for C3: in `internalField nonuniform (1 2 3)boundaryField 9 9)` the
boundary occurrence is at offset 7 after the `(`; both results are functions of
the 7 bytes `(1 2 3)` before it, and the scalar mean is 2 — the trailing
`9 9)` past `boundaryField` is excluded even though a later `)` exists there. -/
theorem c3_witness :
    parseScalarBytes boundaryBuf = scalarRegionStep ((boundaryBuf.drop 25).take 7) ∧
    parseVectorBytes boundaryBuf = vectorRegionStep ((boundaryBuf.drop 25).take 7) ∧
    scalarRegionStep ((boundaryBuf.drop 25).take 7) = some 2 := by
  have h := c3_boundary_truncation boundaryBuf 0 1 25 7 (by decide) (by decide) (by decide) (by decide)
  refine ⟨h.1, h.2, ?_⟩
  simp only [scalarRegionStep,
    show findLastIdx 41 ((boundaryBuf.drop 25).take 7) = some 6 from by decide]
  rw [scalarMean_eq,
    show ((((boundaryBuf.drop 25).take 7).drop 1).take (6 - 1)).splitOnP isSplitByte =
      [[49], [50], [51]] from by decide]
  norm_num [List.filterMap_cons, acceptTok, prefilterB, isDigitB, parseDecimal,
    parseUnsigned, parseExpPart, digitsToNat]

/-- C10: the nonuniform region extraction is total and in bounds: a found `(`
lies in the buffer at or after the scan offset and really is `(`; a found last
`)` lies inside the scanned segment and really is `)`; along the nonuniform
path the closing index is strictly greater than the opening index and strictly
below the boundary limit, which itself is at most the buffer length, so the
region slice is a valid (possibly empty) subrange; and a region with no
accepted token gives count 0, the division is never executed, and the absent
result (scalar) or zero triple (vector) is returned. -/
theorem c10_region_safety :
    (∀ (buf : List Nat) (off i : Nat), firstByteFrom buf 40 off = some i →
       off ≤ i ∧ i < buf.length ∧ buf[i]? = some 40) ∧
    (∀ (l : List Nat) (r : Nat), findLastIdx 41 l = some r → r < l.length ∧ l[r]? = some 41) ∧
    (∀ (buf : List Nat) (off start r : Nat),
       firstByteFrom buf 40 off = some start →
       findLastIdx 41 ((buf.drop start).take (endLimitOf buf start - start)) = some r →
       0 < r ∧ start + r < endLimitOf buf start ∧ endLimitOf buf start ≤ buf.length) ∧
    (∀ region : List Nat, acceptedValues isSplitByte region = [] →
       scalarMean (region.splitOnP isSplitByte) = none) ∧
    (∀ region : List Nat, acceptedValues isSplitByteVec region = [] →
       vectorMean (region.splitOnP isSplitByteVec) = (0, 0, 0)) := by
  refine ⟨?_, ?_, ?_, ?_, ?_⟩
  · intro buf off i h
    exact firstByteFrom_spec h
  · intro l r h
    exact findLastIdx_spec 41 l r h
  · intro buf off start r hstart hlast
    obtain ⟨hso, hsl, hs40⟩ := firstByteFrom_spec hstart
    obtain ⟨hrlt, hr41⟩ := findLastIdx_spec 41 _ r hlast
    rw [List.length_take, List.length_drop] at hrlt
    have hEnd : endLimitOf buf start ≤ buf.length := by
      cases hB : findSubstr boundaryPat (buf.drop start) with
      | none => simp [endLimitOf, hB]
      | some k =>
        have hb := findSubstr_bound (by decide : boundaryPat ≠ []) hB
        rw [List.length_drop] at hb
        have h13 : boundaryPat.length = 13 := rfl
        simp only [endLimitOf, hB]
        omega
    refine ⟨?_, by omega, hEnd⟩
    rcases Nat.eq_zero_or_pos r with hr0 | hrpos
    · exfalso
      subst hr0
      rw [List.getElem?_take_of_lt (by omega), List.getElem?_drop] at hr41
      simp only [Nat.add_zero] at hr41
      rw [hs40] at hr41
      simp at hr41
    · exact hrpos
  · intro region h
    rw [scalarMean_eq]
    simp only [acceptedValues] at h
    rw [h]
    simp
  · intro region h
    rw [vectorMean_eq]
    simp only [acceptedValues] at h
    rw [h]
    simp

/-- Witness for C10: the five safety facts at concrete inputs — the `(` and the
last `)` of `internalField nonuniform (1 2 3 4)`, and the all-skipped region
`x y` whose scalar result is None and vector result the zero triple. -/
theorem c10_witness :
    (24 ≤ 25 ∧ 25 < scalarNonuniBuf.length ∧ scalarNonuniBuf[25]? = some 40) ∧
    (8 < ((scalarNonuniBuf.drop 25).take 9).length ∧ ((scalarNonuniBuf.drop 25).take 9)[8]? = some 41) ∧
    (0 < 8 ∧ 25 + 8 < endLimitOf scalarNonuniBuf 25 ∧ endLimitOf scalarNonuniBuf 25 ≤ scalarNonuniBuf.length) ∧
    scalarMean (([120, 32, 121] : List Nat).splitOnP isSplitByte) = none ∧
    vectorMean (([120, 32, 121] : List Nat).splitOnP isSplitByteVec) = (0, 0, 0) :=
  ⟨c10_region_safety.1 scalarNonuniBuf 24 25 (by decide),
   c10_region_safety.2.1 ((scalarNonuniBuf.drop 25).take 9) 8 (by decide),
   c10_region_safety.2.2.1 scalarNonuniBuf 24 25 8 (by decide) (by decide),
   c10_region_safety.2.2.2.1 [120, 32, 121] (by decide),
   c10_region_safety.2.2.2.2 [120, 32, 121] (by decide)⟩

theorem scalar_st_spec (c : Cache) (fs : Fs) (h : ValidCache c) :
    (parse_scalar_field_st c fs).1 = parse_scalar_field fs ∧
    ValidCache (parse_scalar_field_st c fs).2 := by
  obtain ⟨ci, cn, cu⟩ := c
  obtain ⟨hi, hn⟩ := h
  rcases fs with ⟨ex, oR, mL, mR⟩
  cases ex
  · exact ⟨rfl, hi, hn⟩
  · cases oR with
    | error e => exact ⟨rfl, hi, hn⟩
    | ok u =>
      cases mL with
      | error e => exact ⟨rfl, hi, hn⟩
      | ok len =>
        by_cases hl : len = 0
        · subst hl
          exact ⟨rfl, hi, hn⟩
        · cases mR with
          | error e =>
            refine ⟨by simp [parse_scalar_field_st, parse_scalar_field, hl], ?_⟩
            simp only [parse_scalar_field_st, hl]
            simpa using ⟨hi, hn⟩
          | ok buf =>
            simp only [ValidCache] at hi hn ⊢
            cases hF : findSubstr internalFieldPat buf with
            | none =>
              rcases hi with rfl | rfl <;> rcases hn with rfl | rfl <;>
                simp [parse_scalar_field_st, parse_scalar_field, parseScalarBytes,
                  get_re_internal_field, getOrInit, hl, hF]
            | some s =>
              cases hN : findSubstr nonuniformPat (windowOf buf (s + internalFieldPat.length)) with
              | some j =>
                rcases hi with rfl | rfl <;> rcases hn with rfl | rfl <;>
                  simp [parse_scalar_field_st, parse_scalar_field, parseScalarBytes,
                    get_re_internal_field, get_re_nonuniform, getOrInit, hl, hF, hN]
              | none =>
                rcases hi with rfl | rfl <;> rcases hn with rfl | rfl <;>
                  simp [parse_scalar_field_st, parse_scalar_field, parseScalarBytes,
                    get_re_internal_field, get_re_nonuniform, get_re_uniform, getOrInit,
                    hl, hF, hN]

theorem vector_st_spec (c : Cache) (fs : Fs) (h : ValidCache c) :
    (parse_vector_field_st c fs).1 = parse_vector_field fs ∧
    ValidCache (parse_vector_field_st c fs).2 := by
  obtain ⟨ci, cn, cu⟩ := c
  obtain ⟨hi, hn⟩ := h
  rcases fs with ⟨ex, oR, mL, mR⟩
  cases ex
  · exact ⟨rfl, hi, hn⟩
  · cases oR with
    | error e => exact ⟨rfl, hi, hn⟩
    | ok u =>
      cases mL with
      | error e => exact ⟨rfl, hi, hn⟩
      | ok len =>
        by_cases hl : len = 0
        · subst hl
          exact ⟨rfl, hi, hn⟩
        · cases mR with
          | error e =>
            refine ⟨by simp [parse_vector_field_st, parse_vector_field, hl], ?_⟩
            simp only [parse_vector_field_st, hl]
            simpa using ⟨hi, hn⟩
          | ok buf =>
            simp only [ValidCache] at hi hn ⊢
            cases hF : findSubstr internalFieldPat buf with
            | none =>
              rcases hi with rfl | rfl <;> rcases hn with rfl | rfl <;>
                simp [parse_vector_field_st, parse_vector_field, parseVectorBytes,
                  get_re_internal_field, getOrInit, hl, hF]
            | some s =>
              cases hN : findSubstr nonuniformPat (windowOf buf (s + internalFieldPat.length)) with
              | some j =>
                rcases hi with rfl | rfl <;> rcases hn with rfl | rfl <;>
                  simp [parse_vector_field_st, parse_vector_field, parseVectorBytes,
                    get_re_internal_field, get_re_nonuniform, getOrInit, hl, hF, hN]
              | none =>
                rcases hi with rfl | rfl <;> rcases hn with rfl | rfl <;>
                  simp [parse_vector_field_st, parse_vector_field, parseVectorBytes,
                    get_re_internal_field, get_re_nonuniform, get_re_uniform, getOrInit,
                    hl, hF, hN]

/-- C8: both operations are pure functions of the file outcomes: from any
reachable OnceLock cache state the stateful run returns exactly the stateless
result, the cache it leaves behind is again reachable, and repeated invocations
(in any order, scalar or vector, across the lazily initialised shared matchers)
return identical results. -/
theorem c8_pure_and_idempotent (c : Cache) (fs : Fs) (h : ValidCache c) :
    (parse_scalar_field_st c fs).1 = parse_scalar_field fs ∧
    (parse_vector_field_st c fs).1 = parse_vector_field fs ∧
    ValidCache (parse_scalar_field_st c fs).2 ∧
    ValidCache (parse_vector_field_st c fs).2 ∧
    (parse_scalar_field_st (parse_scalar_field_st c fs).2 fs).1 = (parse_scalar_field_st c fs).1 ∧
    (parse_vector_field_st (parse_vector_field_st c fs).2 fs).1 = (parse_vector_field_st c fs).1 ∧
    (parse_vector_field_st (parse_scalar_field_st c fs).2 fs).1 = parse_vector_field fs := by
  obtain ⟨hs1, hs2⟩ := scalar_st_spec c fs h
  obtain ⟨hv1, hv2⟩ := vector_st_spec c fs h
  refine ⟨hs1, hv1, hs2, hv2, ?_, ?_, ?_⟩
  · rw [(scalar_st_spec _ fs hs2).1, hs1]
  · rw [(vector_st_spec _ fs hv2).1, hv1]
  · rw [(vector_st_spec _ fs hs2).1]

/-- Witness for C8: the empty cache (process start) and the scalar uniform
file; the stateful and stateless runs agree and the left-behind cache is
reachable. -/
theorem c8_witness :
    (parse_scalar_field_st emptyCache ⟨true, .ok (), .ok 26, .ok scalarUniBuf⟩).1 =
      parse_scalar_field ⟨true, .ok (), .ok 26, .ok scalarUniBuf⟩ ∧
    (parse_vector_field_st emptyCache ⟨true, .ok (), .ok 26, .ok scalarUniBuf⟩).1 =
      parse_vector_field ⟨true, .ok (), .ok 26, .ok scalarUniBuf⟩ ∧
    ValidCache (parse_scalar_field_st emptyCache ⟨true, .ok (), .ok 26, .ok scalarUniBuf⟩).2 ∧
    ValidCache (parse_vector_field_st emptyCache ⟨true, .ok (), .ok 26, .ok scalarUniBuf⟩).2 ∧
    (parse_scalar_field_st
        (parse_scalar_field_st emptyCache ⟨true, .ok (), .ok 26, .ok scalarUniBuf⟩).2
        ⟨true, .ok (), .ok 26, .ok scalarUniBuf⟩).1 =
      (parse_scalar_field_st emptyCache ⟨true, .ok (), .ok 26, .ok scalarUniBuf⟩).1 ∧
    (parse_vector_field_st
        (parse_vector_field_st emptyCache ⟨true, .ok (), .ok 26, .ok scalarUniBuf⟩).2
        ⟨true, .ok (), .ok 26, .ok scalarUniBuf⟩).1 =
      (parse_vector_field_st emptyCache ⟨true, .ok (), .ok 26, .ok scalarUniBuf⟩).1 ∧
    (parse_vector_field_st
        (parse_scalar_field_st emptyCache ⟨true, .ok (), .ok 26, .ok scalarUniBuf⟩).2
        ⟨true, .ok (), .ok 26, .ok scalarUniBuf⟩).1 =
      parse_vector_field ⟨true, .ok (), .ok 26, .ok scalarUniBuf⟩ :=
  c8_pure_and_idempotent emptyCache ⟨true, .ok (), .ok 26, .ok scalarUniBuf⟩ ⟨Or.inl rfl, Or.inl rfl⟩
